import Mathlib

/-
Verification of the chattr room/message/presence/reaction state engine
(`src/backend/main.mo`).  The Motoko actor's mutable maps
(`OrderedMap.Map<Nat, _>`) are embedded as association lists with
at-most-one binding per key (`AList`), Motoko's `List.List<T>` as Lean's
`List`, `Text` as `String`, timestamps (`Int`, nanoseconds) as `Int`.
`Debug.trap` rolls the whole call back on the IC, so fallible public
functions are embedded as `Option State` (`none` = trap, no state change).
`Time.now()` is passed in explicitly as a `now : Int` argument.
-/

namespace Chattr

/-- Association-list model of `OrderedMap.Map<Nat, A>`: `put` replaces the
binding if the key is present and appends it otherwise, so a map built by
`put` has at most one binding per key, like the source's ordered map. -/
abbrev AList (α : Type) : Type := List (Nat × α)

namespace AList

def empty {α : Type} : AList α := []

def get {α : Type} : AList α → Nat → Option α
  | [], _ => none
  | (k, v) :: t, k' => if k' = k then some v else get t k'

def put {α : Type} : AList α → Nat → α → AList α
  | [], k, v => [(k, v)]
  | (k', v') :: t, k, v => if k = k' then (k, v) :: t else (k', v') :: put t k v

def keys {α : Type} (es : AList α) : List Nat := es.map Prod.fst

end AList

/-- Character-list helper: `hasPrefixL l p` holds when `p` is an initial
segment of `l` (used to embed Motoko's `Text.contains`/`Text.endsWith`). -/
def hasPrefixL : List Char → List Char → Bool
  | _, [] => true
  | [], _ :: _ => false
  | c :: l, p :: ps => c = p && hasPrefixL l ps

/-- Substring occurrence on character lists, embedding `Text.contains`. -/
def hasSubL : List Char → List Char → Bool
  | l, sub =>
    hasPrefixL l sub ||
      match l with
      | [] => false
      | _ :: t => hasSubL t sub

/-- Embedding of Motoko `Text.contains(s, #text sub)`. -/
def textContains (s sub : String) : Bool := hasSubL s.data sub.data

/-- Embedding of Motoko `Text.endsWith(s, #text suf)`. -/
def textEndsWith (s suf : String) : Bool := hasPrefixL s.data.reverse suf.data.reverse

/-- Embedding of Motoko `Text.toLowercase`. -/
def textToLower (s : String) : String := String.mk (s.data.map Char.toLower)

/-- Message record (`public type Message` in `main.mo`). -/
structure Message where
  id : Nat
  content : String
  timestamp : Int
  sender : String
  chatroomId : Nat
  mediaUrl : Option String
  mediaType : Option String
  avatarUrl : Option String
  senderId : String
  replyToMessageId : Option Nat
deriving DecidableEq

/-- Chatroom record (`public type Chatroom` in `main.mo`). -/
structure Chatroom where
  id : Nat
  topic : String
  description : String
  mediaUrl : String
  mediaType : String
  createdAt : Int
  messageCount : Nat
  viewCount : Nat
  pinnedVideoId : Option Nat
  category : String
deriving DecidableEq

/-- Presence record (`public type ActiveUser` in `main.mo`). -/
structure ActiveUser where
  userId : String
  lastActive : Int
deriving DecidableEq

/-- Reaction record (`public type Reaction` in `main.mo`): the stored
`count` field lives next to the `users` identity list. -/
structure Reaction where
  emoji : String
  count : Nat
  users : List String
deriving DecidableEq

/-- Chatroom view with derived liveness (`public type ChatroomWithLiveStatus`). -/
structure ChatroomWithLiveStatus where
  id : Nat
  topic : String
  description : String
  mediaUrl : String
  mediaType : String
  createdAt : Int
  messageCount : Nat
  viewCount : Nat
  pinnedVideoId : Option Nat
  isLive : Bool
  activeUserCount : Nat
  category : String
deriving DecidableEq

/-- Actor state: the two id counters and the four keyed tables declared at
the top of the actor body in `main.mo`. -/
structure State where
  nextMessageId : Nat
  nextChatroomId : Nat
  chatrooms : AList Chatroom
  messages : AList (List Message)
  activeUsers : AList (List ActiveUser)
  reactions : AList (List Reaction)
deriving DecidableEq

/-- Initial actor state: both counters at 0, all four tables empty. -/
def initialState : State :=
  { nextMessageId := 0, nextChatroomId := 0, chatrooms := AList.empty,
    messages := AList.empty, activeUsers := AList.empty, reactions := AList.empty }

/-- Embedding of `isValidImageUrl`. -/
def isValidImageUrl (url : String) : Bool :=
  if textContains url "blob-storage" then true
  else
    textEndsWith url ".jpg" || textEndsWith url ".jpeg" ||
      textEndsWith url ".png" || textEndsWith url ".gif"

/-- Embedding of `isValidYouTubeUrl`. -/
def isValidYouTubeUrl (url : String) : Bool :=
  textContains url "youtube.com" || textContains url "youtu.be"

/-- Embedding of `isValidTwitchUrl`. -/
def isValidTwitchUrl (url : String) : Bool :=
  textContains url "twitch.tv" || textContains url "clips.twitch.tv"

/-- Embedding of `isValidTwitterUrl`. -/
def isValidTwitterUrl (url : String) : Bool :=
  textContains url "twitter.com" || textContains url "x.com"

/-- Embedding of `validateMediaUrl`. -/
def validateMediaUrl (url mediaType : String) : Bool :=
  let lowerUrl := textToLower url
  match mediaType with
  | "image" => isValidImageUrl lowerUrl
  | "youtube" => isValidYouTubeUrl lowerUrl
  | "twitch" => isValidTwitchUrl lowerUrl
  | "twitter" => isValidTwitterUrl lowerUrl
  | _ => false

/-- Embedding of `createChatroom`: validation traps are `none`; on success
returns the new state and the new chatroom id.  The source first puts an
empty message list for the new room and then immediately overwrites it with
the singleton seed-message list; both puts are kept. -/
def createChatroom (s : State) (topic description mediaUrl mediaType category : String)
    (now : Int) : Option (State × Nat) :=
  if topic.length = 0 ∨ description.length = 0 then none
  else if mediaUrl.length = 0 then none
  else if category.length = 0 then none
  else if validateMediaUrl mediaUrl mediaType = false then none
  else
    let chatroom : Chatroom :=
      { id := s.nextChatroomId, topic := topic, description := description,
        mediaUrl := mediaUrl, mediaType := mediaType, createdAt := now,
        messageCount := 1, viewCount := 0, pinnedVideoId := none, category := category }
    let chatrooms1 := s.chatrooms.put s.nextChatroomId chatroom
    let messages1 := s.messages.put s.nextChatroomId []
    let firstMessage : Message :=
      { id := s.nextMessageId, content := "Media content posted by creator",
        timestamp := now, sender := "Creator", chatroomId := s.nextChatroomId,
        mediaUrl := some mediaUrl, mediaType := some mediaType, avatarUrl := none,
        senderId := "creator", replyToMessageId := none }
    let messages2 := messages1.put s.nextChatroomId [firstMessage]
    some ({ s with
            chatrooms := chatrooms1
            messages := messages2
            nextMessageId := s.nextMessageId + 1
            nextChatroomId := s.nextChatroomId + 1 }, chatroom.id)

/-- Embedding of `getChatroom`: composes the stored room with liveness
derived from the presence table via the symmetric 60-second
(60 * 10^9 nanoseconds) absolute-difference window. -/
def getChatroom (s : State) (id : Nat) (now : Int) : Option ChatroomWithLiveStatus :=
  match s.chatrooms.get id with
  | none => none
  | some chatroom =>
    let activeThreshold : Nat := 60 * 1000000000
    let activeUsersForRoom := (s.activeUsers.get id).getD []
    let activeUserCount :=
      (activeUsersForRoom.filter fun user =>
        (now - user.lastActive).natAbs ≤ activeThreshold).length
    some { id := chatroom.id, topic := chatroom.topic,
           description := chatroom.description, mediaUrl := chatroom.mediaUrl,
           mediaType := chatroom.mediaType, createdAt := chatroom.createdAt,
           messageCount := chatroom.messageCount, viewCount := chatroom.viewCount,
           pinnedVideoId := chatroom.pinnedVideoId,
           isLive := decide (activeUserCount > 0),
           activeUserCount := activeUserCount, category := chatroom.category }

/-- Embedding of `sendMessage`: traps (`none`) on empty content or missing
room, otherwise appends the message to the room's most-recent-first log,
increments the room's `messageCount`, and upserts the presence record for
`senderId` in that room. -/
def sendMessage (s : State) (content sender : String) (chatroomId : Nat)
    (mediaUrl mediaType avatarUrl : Option String) (senderId : String)
    (replyToMessageId : Option Nat) (now : Int) : Option State :=
  if content.length = 0 then none
  else
    match s.chatrooms.get chatroomId with
    | none => none
    | some chatroom =>
      let message : Message :=
        { id := s.nextMessageId, content := content, timestamp := now,
          sender := sender, chatroomId := chatroomId, mediaUrl := mediaUrl,
          mediaType := mediaType, avatarUrl := avatarUrl, senderId := senderId,
          replyToMessageId := replyToMessageId }
      let chatroomMessages := (s.messages.get chatroomId).getD []
      let messages1 := s.messages.put chatroomId (message :: chatroomMessages)
      let updatedChatroom := { chatroom with messageCount := chatroom.messageCount + 1 }
      let chatrooms1 := s.chatrooms.put chatroomId updatedChatroom
      let activeUsersForRoom := (s.activeUsers.get chatroomId).getD []
      let updatedActiveUsers : List ActiveUser :=
        { userId := senderId, lastActive := now } ::
          activeUsersForRoom.filter fun user => user.userId ≠ senderId
      some { s with
             messages := messages1
             nextMessageId := s.nextMessageId + 1
             chatrooms := chatrooms1
             activeUsers := s.activeUsers.put chatroomId updatedActiveUsers }

/-- Embedding of `getMessages`: the room's internal most-recent-first log,
reversed into chronological order (missing room yields `[]`). -/
def getMessages (s : State) (chatroomId : Nat) : List Message :=
  match s.messages.get chatroomId with
  | none => []
  | some chatroomMessages => chatroomMessages.reverse

/-- Embedding of `incrementViewCount`: bumps `viewCount` and upserts the
presence record for `userId`. -/
def incrementViewCount (s : State) (chatroomId : Nat) (userId : String)
    (now : Int) : Option State :=
  match s.chatrooms.get chatroomId with
  | none => none
  | some chatroom =>
    let updatedChatroom := { chatroom with viewCount := chatroom.viewCount + 1 }
    let chatrooms1 := s.chatrooms.put chatroomId updatedChatroom
    let activeUsersForRoom := (s.activeUsers.get chatroomId).getD []
    let updatedActiveUsers : List ActiveUser :=
      { userId := userId, lastActive := now } ::
        activeUsersForRoom.filter fun user => user.userId ≠ userId
    some { s with
           chatrooms := chatrooms1
           activeUsers := s.activeUsers.put chatroomId updatedActiveUsers }

/-- Embedding of `pinVideo`. -/
def pinVideo (s : State) (chatroomId messageId : Nat) : Option State :=
  match s.chatrooms.get chatroomId with
  | none => none
  | some chatroom =>
    some { s with chatrooms :=
      s.chatrooms.put chatroomId { chatroom with pinnedVideoId := some messageId } }

/-- Embedding of `unpinVideo`. -/
def unpinVideo (s : State) (chatroomId : Nat) : Option State :=
  match s.chatrooms.get chatroomId with
  | none => none
  | some chatroom =>
    some { s with chatrooms :=
      s.chatrooms.put chatroomId { chatroom with pinnedVideoId := none } }

/-- Single-message rewrite applied by `updateUsernameRetroactively`. -/
def renameMsg (senderId newUsername : String) (message : Message) : Message :=
  if message.senderId = senderId then { message with sender := newUsername }
  else message

/-- Embedding of `updateUsernameRetroactively`: folds over all map entries,
putting back each room's message list with matching senders rewritten,
starting from the current map (`var updatedMessages = messages`). -/
def updateUsernameRetroactively (s : State) (senderId newUsername : String) : State :=
  let updatedMessages := s.messages.foldl
    (fun acc kv => AList.put acc kv.1 (kv.2.map (renameMsg senderId newUsername)))
    s.messages
  { s with messages := updatedMessages }

/-- Single-message rewrite applied by `updateAvatarRetroactively`. -/
def reavatarMsg (senderId : String) (newAvatarUrl : Option String)
    (message : Message) : Message :=
  if message.senderId = senderId then { message with avatarUrl := newAvatarUrl }
  else message

/-- Embedding of `updateAvatarRetroactively` (same scan-and-patch shape as
the username rewrite). -/
def updateAvatarRetroactively (s : State) (senderId : String)
    (newAvatarUrl : Option String) : State :=
  let updatedMessages := s.messages.foldl
    (fun acc kv => AList.put acc kv.1 (kv.2.map (reavatarMsg senderId newAvatarUrl)))
    s.messages
  { s with messages := updatedMessages }

/-- Embedding of the presence sweep in `cleanupInactiveUsers` (the admin
gate is an external collaborator; an unauthorized call traps with no state
change, so only the authorized sweep is modelled). -/
def cleanupInactiveUsers (s : State) (now : Int) : State :=
  let activeThreshold : Nat := 60 * 1000000000
  let updatedActiveUsers := s.activeUsers.foldl
    (fun acc kv => AList.put acc kv.1
      (kv.2.filter fun user => (now - user.lastActive).natAbs ≤ activeThreshold))
    s.activeUsers
  { s with activeUsers := updatedActiveUsers }

/-- Fold step of `addReaction` (the `List.foldLeft` body in the source):
accumulates the rebuilt (reversed) reaction list and the `found` flag. -/
def addReactionStep (emoji userId : String) :
    List Reaction × Bool → Reaction → List Reaction × Bool :=
  fun (acc, found) reaction =>
    if reaction.emoji = emoji then
      let hasReacted := reaction.users.any fun user => user = userId
      if hasReacted then (reaction :: acc, true)
      else ({ reaction with
              count := reaction.count + 1
              users := userId :: reaction.users } :: acc, true)
    else (reaction :: acc, found)

/-- Embedding of `addReaction`: fold-and-rebuild over the message's
reaction list; if the emoji was not found, a fresh record is pushed onto
the original list, otherwise the rebuilt list is reversed back. -/
def addReaction (s : State) (messageId : Nat) (emoji userId : String) : State :=
  let messageReactions := (s.reactions.get messageId).getD []
  let folded := messageReactions.foldl (addReactionStep emoji userId) ([], false)
  if folded.2 = false then
    let newReaction : Reaction := { emoji := emoji, count := 1, users := [userId] }
    { s with reactions := s.reactions.put messageId (newReaction :: messageReactions) }
  else
    { s with reactions := s.reactions.put messageId folded.1.reverse }

/-- Per-record update of `removeReaction` (the `List.map` body in the
source): for the matching emoji, decrement `count` (floored at 0) and
filter `userId` out of `users`; emptied records are not dropped. -/
def gRemove (emoji userId : String) (reaction : Reaction) : Reaction :=
  if reaction.emoji = emoji then
    { reaction with
      count := if reaction.count > 0 then reaction.count - 1 else 0,
      users := reaction.users.filter fun user => user ≠ userId }
  else reaction

/-- Embedding of `removeReaction`: maps `gRemove` over the message's
reaction list. -/
def removeReaction (s : State) (messageId : Nat) (emoji userId : String) : State :=
  let messageReactions := (s.reactions.get messageId).getD []
  { s with reactions :=
      s.reactions.put messageId (messageReactions.map (gRemove emoji userId)) }

/-- Embedding of `getReactions`: returns the stored reaction list verbatim
(missing message id yields `[]`). -/
def getReactions (s : State) (messageId : Nat) : List Reaction :=
  match s.reactions.get messageId with
  | none => []
  | some messageReactions => messageReactions

/-- Reply predicate of `getReplies` (the `switch` on `replyToMessageId`). -/
def isReplyTo (parentMessageId : Nat) (msg : Message) : Bool :=
  match msg.replyToMessageId with
  | none => false
  | some replyId => replyId = parentMessageId

/-- Embedding of `getReplies`: filters the room's internal log by parent id
and reverses into chronological order. -/
def getReplies (s : State) (chatroomId parentMessageId : Nat) : List Message :=
  match s.messages.get chatroomId with
  | none => []
  | some chatroomMessages =>
    (chatroomMessages.filter (isReplyTo parentMessageId)).reverse

/-- Public state-mutating operations of the actor that touch the modelled
state (profile and blob-storage endpoints touch none of these fields). -/
inductive Op : Type
  | create (topic description mediaUrl mediaType category : String) (now : Int)
  | send (content sender : String) (chatroomId : Nat)
      (mediaUrl mediaType avatarUrl : Option String) (senderId : String)
      (replyToMessageId : Option Nat) (now : Int)
  | view (chatroomId : Nat) (userId : String) (now : Int)
  | pin (chatroomId messageId : Nat)
  | unpin (chatroomId : Nat)
  | rename (senderId newUsername : String)
  | reavatar (senderId : String) (newAvatarUrl : Option String)
  | cleanup (now : Int)
  | addR (messageId : Nat) (emoji userId : String)
  | removeR (messageId : Nat) (emoji userId : String)

/-- One public call: a trapped call (`none`) leaves the state unchanged,
matching the IC's rollback-on-trap semantics. -/
def step (s : State) : Op → State
  | .create t d mu mt c now => match createChatroom s t d mu mt c now with
    | none => s
    | some (s', _) => s'
  | .send co se r mu mt au sid rt now => (sendMessage s co se r mu mt au sid rt now).getD s
  | .view r u now => (incrementViewCount s r u now).getD s
  | .pin r m => (pinVideo s r m).getD s
  | .unpin r => (unpinVideo s r).getD s
  | .rename sid nn => updateUsernameRetroactively s sid nn
  | .reavatar sid av => updateAvatarRetroactively s sid av
  | .cleanup now => cleanupInactiveUsers s now
  | .addR m e u => addReaction s m e u
  | .removeR m e u => removeReaction s m e u

/-- Run a sequence of public calls. -/
def run (s : State) (ops : List Op) : State := ops.foldl step s

/-- Reachable states: produced by some sequence of public calls from the
initial actor state. -/
def Reach (s : State) : Prop := ∃ ops : List Op, s = run initialState ops

/-- Per-record effect of one `addReaction(messageId, emoji, userId)` call on
a record already in the list: matching emoji gains `userId` (and `count + 1`)
unless `userId` already reacted; other records are untouched.  This is the
net effect of `addReactionStep` on each element. -/
def gAdd (emoji userId : String) (reaction : Reaction) : Reaction :=
  if reaction.emoji = emoji then
    if reaction.users.any (fun user => user = userId) then reaction
    else { reaction with
           count := reaction.count + 1
           users := userId :: reaction.users }
  else reaction

/-- Whether some record in the list carries the given emoji (the `found`
flag computed by the fold in `addReaction`). -/
def hasEmojiR (emoji : String) (l : List Reaction) : Bool :=
  l.any fun r => r.emoji = emoji

/-- Net effect of `addReaction` on a message's reaction list. -/
def addList (emoji userId : String) (l : List Reaction) : List Reaction :=
  if hasEmojiR emoji l then l.map (gAdd emoji userId)
  else { emoji := emoji, count := 1, users := [userId] } :: l

/-- Run a sequence of `addReaction` calls (message id, emoji, user id). -/
def applyAdds (s : State) (l : List (Nat × String × String)) : State :=
  l.foldl (fun acc t => addReaction acc t.1 t.2.1 t.2.2) s

/-- States reachable by `addReaction` calls together with `removeReaction`
calls that only ever remove an identity currently present in the targeted
emoji's identity set. -/
inductive GoodReactSeq : State → Prop
  | init : GoodReactSeq initialState
  | add (s : State) (m : Nat) (e u : String) :
      GoodReactSeq s → GoodReactSeq (addReaction s m e u)
  | remove (s : State) (m : Nat) (e u : String) :
      GoodReactSeq s →
      (∀ r ∈ getReactions s m, r.emoji = e → u ∈ r.users) →
      GoodReactSeq (removeReaction s m e u)

/-- Structural invariant of reachable states, proved preserved by every
public call: message-table keys are distinct and below `nextChatroomId`
(as are chatroom keys), each room's log only holds messages tagged with
that room's id, and each room's stored `messageCount` equals the length of
its log. -/
structure Inv (s : State) : Prop where
  msgKeysNodup : (AList.keys s.messages).Nodup
  msgKeysLt : ∀ k ∈ AList.keys s.messages, k < s.nextChatroomId
  roomKeysLt : ∀ k ∈ AList.keys s.chatrooms, k < s.nextChatroomId
  msgRoom : ∀ k l, s.messages.get k = some l → ∀ m ∈ l, m.chatroomId = k
  countLen : ∀ k c, s.chatrooms.get k = some c →
    ∃ l, s.messages.get k = some l ∧ c.messageCount = l.length

/-- Message ids assigned by one call in a given state: `createChatroom`
assigns the seed message's id when it succeeds, `sendMessage` assigns the
new message's id when it succeeds. -/
def msgIdsOf (s : State) : Op → List Nat
  | .create t d mu mt c now =>
    if (createChatroom s t d mu mt c now).isSome then [s.nextMessageId] else []
  | .send co se r mu mt au sid rt now =>
    if (sendMessage s co se r mu mt au sid rt now).isSome then [s.nextMessageId] else []
  | _ => []

/-- Chatroom ids assigned by one call in a given state. -/
def roomIdsOf (s : State) : Op → List Nat
  | .create t d mu mt c now =>
    if (createChatroom s t d mu mt c now).isSome then [s.nextChatroomId] else []
  | _ => []

/-- Message ids assigned, in order, along a run of public calls. -/
def messageIdsAssigned : State → List Op → List Nat
  | _, [] => []
  | s, op :: rest => msgIdsOf s op ++ messageIdsAssigned (step s op) rest

/-- Chatroom ids assigned, in order, along a run of public calls. -/
def chatroomIdsAssigned : State → List Op → List Nat
  | _, [] => []
  | s, op :: rest => roomIdsOf s op ++ chatroomIdsAssigned (step s op) rest

/-- Concrete state with one chatroom, produced by one successful
`createChatroom` call (used to instantiate theorems with hypotheses). -/
def exRoomState : State :=
  run initialState [Op.create "t" "d" "youtube.com/w" "youtube" "cat" 5]

/-- Concrete state after one `sendMessage` into `exRoomState`. -/
def exSentState : State :=
  run initialState
    [Op.create "t" "d" "youtube.com/w" "youtube" "cat" 5,
     Op.send "hi" "Alice" 0 none none none "u1" (some 0) 7]

/-- Concrete chatroom record (used to instantiate theorems with
hypotheses). -/
def exRoom : Chatroom :=
  { id := 0, topic := "t", description := "d", mediaUrl := "m", mediaType := "image",
    createdAt := 0, messageCount := 1, viewCount := 0, pinnedVideoId := none,
    category := "c" }

/-- Concrete state whose only presence record is future-dated
(`lastActive = 100s` in nanoseconds). -/
def exPresenceState : State :=
  { nextMessageId := 1, nextChatroomId := 1, chatrooms := [(0, exRoom)],
    messages := [(0, [])],
    activeUsers := [(0, [{ userId := "u1", lastActive := 100000000000 }])],
    reactions := [] }

namespace AList

theorem keys_cons {α : Type} (hd : Nat × α) (t : AList α) :
    keys (hd :: t) = hd.1 :: keys t := rfl

theorem get_put_self {α : Type} (es : AList α) (k : Nat) (v : α) :
    (es.put k v).get k = some v := by
  induction es with
  | nil => simp [put, get]
  | cons hd t ih =>
    by_cases h : k = hd.1
    · simp [put, h, get]
    · simp [put, get, h, ih]

theorem get_put_ne {α : Type} (es : AList α) (k k' : Nat) (v : α) (h : k' ≠ k) :
    (es.put k v).get k' = es.get k' := by
  induction es with
  | nil => simp [put, get, h]
  | cons hd t ih =>
    by_cases hk : k = hd.1
    · subst hk
      simp [put, get, h]
    · by_cases hk' : k' = hd.1
      · simp [put, get, hk, hk']
      · simp [put, get, hk, hk', ih]

theorem put_put {α : Type} (es : AList α) (k : Nat) (a b : α) :
    (es.put k a).put k b = es.put k b := by
  induction es with
  | nil => simp [put]
  | cons hd t ih =>
    by_cases h : k = hd.1
    · simp [put, h]
    · simp [put, h, ih]

theorem mem_of_get_eq_some {α : Type} (es : AList α) (k : Nat) (v : α)
    (h : es.get k = some v) : (k, v) ∈ es := by
  induction es with
  | nil => simp [get] at h
  | cons hd t ih =>
    obtain ⟨k1, v1⟩ := hd
    by_cases hk : k = k1
    · subst hk
      simp [get] at h
      subst h
      exact List.mem_cons_self _ _
    · simp [get, hk] at h
      exact List.mem_cons_of_mem _ (ih h)

theorem get_eq_none_iff {α : Type} (es : AList α) (k : Nat) :
    es.get k = none ↔ k ∉ keys es := by
  induction es with
  | nil => simp [get, keys]
  | cons hd t ih =>
    rw [keys_cons]
    by_cases hk : k = hd.1
    · simp only [get, hk, if_pos rfl]
      simp
    · simp only [get, if_neg hk, List.mem_cons, not_or, ih]
      simp [hk]

theorem mem_keys_of_get_eq_some {α : Type} (es : AList α) (k : Nat) (v : α)
    (h : es.get k = some v) : k ∈ keys es := by
  by_contra hk
  rw [← get_eq_none_iff] at hk
  rw [h] at hk
  exact Option.noConfusion hk

theorem keys_put_of_mem {α : Type} (es : AList α) (k : Nat) (v : α)
    (h : k ∈ keys es) : keys (es.put k v) = keys es := by
  induction es with
  | nil => simp [keys] at h
  | cons hd t ih =>
    obtain ⟨k1, v1⟩ := hd
    by_cases hk : k = k1
    · subst hk
      simp [put, keys_cons]
    · rw [keys_cons, List.mem_cons] at h
      rcases h with h | h
      · exact absurd h hk
      · simp only [put, if_neg hk, keys_cons, ih h]

theorem keys_put_of_not_mem {α : Type} (es : AList α) (k : Nat) (v : α)
    (h : k ∉ keys es) : keys (es.put k v) = keys es ++ [k] := by
  induction es with
  | nil => simp [put, keys]
  | cons hd t ih =>
    obtain ⟨k1, v1⟩ := hd
    rw [keys_cons, List.mem_cons, not_or] at h
    simp only [put, if_neg h.1, keys_cons, ih h.2, List.cons_append]

theorem keys_put_nodup {α : Type} (es : AList α) (k : Nat) (v : α)
    (h : (keys es).Nodup) : (keys (es.put k v)).Nodup := by
  by_cases hk : k ∈ keys es
  · rw [keys_put_of_mem es k v hk]
    exact h
  · rw [keys_put_of_not_mem es k v hk]
    simp [List.nodup_append, h, hk]

theorem get_foldl_put_of_not_mem {α : Type} (g : Nat × α → α) (es acc : AList α)
    (k : Nat) (h : k ∉ keys es) :
    (es.foldl (fun a p => put a p.1 (g p)) acc).get k = acc.get k := by
  induction es generalizing acc with
  | nil => rfl
  | cons hd t ih =>
    rw [keys_cons, List.mem_cons, not_or] at h
    rw [List.foldl_cons, ih _ h.2, get_put_ne _ _ _ _ h.1]

theorem get_foldl_put_of_mem {α : Type} (g : Nat × α → α) (es acc : AList α)
    (kv : Nat × α) (hnd : (keys es).Nodup) (hmem : kv ∈ es) :
    (es.foldl (fun a p => put a p.1 (g p)) acc).get kv.1 = some (g kv) := by
  induction es generalizing acc with
  | nil => simp at hmem
  | cons hd t ih =>
    rw [keys_cons, List.nodup_cons] at hnd
    rcases List.mem_cons.mp hmem with heq | hmem'
    · subst heq
      rw [List.foldl_cons, get_foldl_put_of_not_mem g t _ _ hnd.1, get_put_self]
    · exact List.foldl_cons _ _ ▸ ih _ hnd.2 hmem'

end AList

/-- The `getReactions` view is the raw table entry with default `[]`. -/
theorem getReactions_eq_getD (s : State) (m : Nat) :
    getReactions s m = (s.reactions.get m).getD [] := by
  unfold getReactions
  cases s.reactions.get m <;> rfl

/-- Characterization of the fold inside `addReaction`: it rebuilds the list
(reversed) with `gAdd` applied to each record, and reports whether any
record carried the emoji. -/
theorem foldl_addReactionStep (e u : String) (l acc : List Reaction) (b : Bool) :
    l.foldl (addReactionStep e u) (acc, b)
      = ((l.map (gAdd e u)).reverse ++ acc, b || hasEmojiR e l) := by
  induction l generalizing acc b with
  | nil => simp [hasEmojiR]
  | cons r t ih =>
    rw [List.foldl_cons]
    by_cases he : r.emoji = e
    · by_cases hu : r.users.any (fun user => user = u)
      · rw [show addReactionStep e u (acc, b) r = (r :: acc, true) by
          simp [addReactionStep, he, hu]]
        rw [ih]
        simp [gAdd, he, hu, hasEmojiR]
      · rw [show addReactionStep e u (acc, b) r
            = (({ r with count := r.count + 1, users := u :: r.users }) :: acc, true) by
          simp [addReactionStep, he, hu]]
        rw [ih]
        simp [gAdd, he, hu, hasEmojiR]
    · rw [show addReactionStep e u (acc, b) r = (r :: acc, b) by
        simp [addReactionStep, he]]
      rw [ih]
      simp [gAdd, he, hasEmojiR]

/-- Net effect of `addReaction` on the state: the message's reaction list
is replaced by `addList`. -/
theorem addReaction_eq (s : State) (m : Nat) (e u : String) :
    addReaction s m e u
      = { s with reactions := s.reactions.put m (addList e u (getReactions s m)) } := by
  simp only [addReaction, ← getReactions_eq_getD, foldl_addReactionStep]
  by_cases h : hasEmojiR e (getReactions s m)
  · simp [h, addList]
  · simp [h, addList]

/-- Reading the reaction table after `addReaction`. -/
theorem getReactions_addReaction (s : State) (m : Nat) (e u : String) (m' : Nat) :
    getReactions (addReaction s m e u) m'
      = if m' = m then addList e u (getReactions s m) else getReactions s m' := by
  rw [addReaction_eq, getReactions_eq_getD]
  by_cases h : m' = m
  · subst h
    rw [AList.get_put_self]
    simp
  · rw [AList.get_put_ne _ _ _ _ h, ← getReactions_eq_getD]
    simp [h]

/-- Reading the reaction table after `removeReaction`. -/
theorem getReactions_removeReaction (s : State) (m : Nat) (e u : String) (m' : Nat) :
    getReactions (removeReaction s m e u) m'
      = if m' = m then (getReactions s m).map (gRemove e u) else getReactions s m' := by
  simp only [removeReaction, ← getReactions_eq_getD]
  rw [getReactions_eq_getD { s with reactions := _ }]
  by_cases h : m' = m
  · subst h
    rw [AList.get_put_self]
    simp
  · rw [AList.get_put_ne _ _ _ _ h, ← getReactions_eq_getD]
    simp [h]

theorem gAdd_emoji (e u : String) (r : Reaction) : (gAdd e u r).emoji = r.emoji := by
  unfold gAdd
  by_cases he : r.emoji = e
  · by_cases hu : r.users.any (fun user => user = u) <;> simp [he, hu]
  · simp [he]

theorem gAdd_mem_users (e u : String) (r : Reaction) (he : r.emoji = e) :
    u ∈ (gAdd e u r).users := by
  unfold gAdd
  by_cases hu : r.users.any (fun user => user = u)
  · rcases List.any_eq_true.mp hu with ⟨x, hx, hxu⟩
    have : x = u := of_decide_eq_true hxu
    subst this
    simp [he, hu, hx]
  · simp [he, hu]

theorem gAdd_gAdd (e u : String) (r : Reaction) : gAdd e u (gAdd e u r) = gAdd e u r := by
  by_cases he : r.emoji = e
  · by_cases hu : r.users.any (fun user => user = u)
    · simp [gAdd, he, hu]
    · simp [gAdd, he, hu]
  · simp [gAdd, he]

theorem gAdd_eq_self_of_ne (e u : String) (r : Reaction) (he : r.emoji ≠ e) :
    gAdd e u r = r := by
  simp [gAdd, he]

theorem hasEmojiR_map_gAdd (e u : String) (l : List Reaction) :
    hasEmojiR e (l.map (gAdd e u)) = hasEmojiR e l := by
  unfold hasEmojiR
  induction l with
  | nil => rfl
  | cons hd t ih =>
    rw [List.map_cons, List.any_cons, List.any_cons, gAdd_emoji, ih]

theorem map_eq_self_of_forall {α : Type} (l : List α) (f : α → α)
    (h : ∀ a ∈ l, f a = a) : l.map f = l := by
  induction l with
  | nil => rfl
  | cons hd t ih =>
    rw [List.map_cons, h hd (List.mem_cons_self hd t),
      ih fun a ha => h a (List.mem_cons_of_mem hd ha)]

theorem addList_addList (e u : String) (l : List Reaction) :
    addList e u (addList e u l) = addList e u l := by
  by_cases h : hasEmojiR e l
  · have hinner : addList e u l = l.map (gAdd e u) := by rw [addList, if_pos h]
    rw [hinner, addList, hasEmojiR_map_gAdd, if_pos h, List.map_map]
    exact List.map_congr_left fun r _ => gAdd_gAdd e u r
  · have hinner : addList e u l = { emoji := e, count := 1, users := [u] } :: l := by
      rw [addList, if_neg h]
    have hhead : hasEmojiR e ({ emoji := e, count := 1, users := [u] } :: l) = true := by
      simp [hasEmojiR]
    have h1 : gAdd e u { emoji := e, count := 1, users := [u] }
        = { emoji := e, count := 1, users := [u] } := by
      simp [gAdd]
    have h2 : l.map (gAdd e u) = l := by
      refine map_eq_self_of_forall _ _ fun r hr => gAdd_eq_self_of_ne e u r ?_
      intro he
      rw [show hasEmojiR e l = l.any (fun r => r.emoji = e) from rfl, List.any_eq_true] at h
      exact h ⟨r, hr, by simp [he]⟩
    rw [hinner, addList, if_pos hhead, List.map_cons, h1, h2]

theorem getReactions_put (s : State) (m : Nat) (l : List Reaction) :
    getReactions { s with reactions := s.reactions.put m l } m = l := by
  rw [getReactions_eq_getD]
  show ((s.reactions.put m l).get m).getD [] = l
  rw [AList.get_put_self]
  rfl

/-- Claim C5: `addReaction` is idempotent — for every message id, emoji,
identity and starting state, calling it twice in a row leaves exactly the
state reached by calling it once (the whole reaction state, hence in
particular the emoji's count and identity set, is unchanged by the second
call). -/
theorem addReaction_idem (s : State) (m : Nat) (e u : String) :
    addReaction (addReaction s m e u) m e u = addReaction s m e u := by
  rw [addReaction_eq (addReaction s m e u), addReaction_eq s, getReactions_put]
  show ({ s with reactions := (s.reactions.put m (addList e u (getReactions s m))).put m (addList e u (addList e u (getReactions s m))) } : State) = { s with reactions := s.reactions.put m (addList e u (getReactions s m)) }
  rw [AList.put_put, addList_addList]

/-- Claim C1 (counterexample): adding then removing the same reaction
leaves a zero-count entry with an empty identity set in the result of
`getReactions`, so the claim that such entries never appear is false. -/
theorem getReactions_empty_entry :
    getReactions (removeReaction (addReaction initialState 0 "a" "u") 0 "a" "u") 0
      = [{ emoji := "a", count := 0, users := [] }] := by decide

/-- Claim C1 (amended): after any sequence of `addReaction` calls alone,
every entry returned by `getReactions` has a non-empty identity set (it is
`removeReaction` that can leave an empty-set entry behind). -/
theorem getReactions_nonempty_of_adds (adds : List (Nat × String × String)) (m : Nat)
    (r : Reaction) (h : r ∈ getReactions (applyAdds initialState adds) m) :
    r.users ≠ [] := by
  suffices hgen : ∀ (l : List (Nat × String × String)) (s : State),
      (∀ m' r', r' ∈ getReactions s m' → r'.users ≠ []) →
      ∀ m' r', r' ∈ getReactions (applyAdds s l) m' → r'.users ≠ [] by
    refine hgen adds initialState ?_ m r h
    intro m' r' hr'
    simp [getReactions, initialState, AList.empty, AList.get] at hr'
  intro l
  induction l with
  | nil => intro s hs; exact hs
  | cons hd t ih =>
    intro s hs
    refine ih (addReaction s hd.1 hd.2.1 hd.2.2) ?_
    intro m' r' hr'
    rw [getReactions_addReaction] at hr'
    by_cases hm : m' = hd.1
    · rw [if_pos hm] at hr'
      rw [addList] at hr'
      by_cases hfound : hasEmojiR hd.2.1 (getReactions s hd.1)
      · rw [if_pos hfound] at hr'
        rcases List.mem_map.mp hr' with ⟨r0, hr0, hr0eq⟩
        subst hr0eq
        unfold gAdd
        by_cases he : r0.emoji = hd.2.1
        · by_cases hu : r0.users.any (fun user => user = hd.2.2)
          · simpa [he, hu] using hs hd.1 r0 hr0
          · simp [he, hu]
        · simpa [he] using hs hd.1 r0 hr0
      · rw [if_neg hfound] at hr'
        rcases List.mem_cons.mp hr' with heq | hmem
        · subst heq
          simp
        · exact hs hd.1 r' hmem
    · rw [if_neg hm] at hr'
      exact hs m' r' hr'

/-- Claim C1 (witness): a concrete add-only run in which the amended claim
applies to the single returned entry. -/
theorem getReactions_nonempty_of_adds_witness :
    (⟨"a", 1, ["u"]⟩ : Reaction) ∈ getReactions (applyAdds initialState [(0, "a", "u")]) 0
      ∧ (⟨"a", 1, ["u"]⟩ : Reaction).users ≠ [] :=
  ⟨by decide, getReactions_nonempty_of_adds [(0, "a", "u")] 0 ⟨"a", 1, ["u"]⟩ (by decide)⟩

theorem length_filter_ne (l : List String) (u : String) (hnd : l.Nodup) (hm : u ∈ l) :
    (l.filter (fun x => x ≠ u)).length + 1 = l.length := by
  induction l with
  | nil => cases hm
  | cons hd t ih =>
    rw [List.nodup_cons] at hnd
    by_cases hu : hd = u
    · subst hu
      rw [List.filter_cons_of_neg (by simp)]
      rw [List.filter_eq_self.mpr fun a ha => by
        simp only [ne_eq, decide_eq_true_eq]
        intro hau
        exact hnd.1 (hau ▸ ha)]
      simp
    · rcases List.mem_cons.mp hm with h | h
      · exact absurd h.symm hu
      · rw [List.filter_cons_of_pos (by simp [hu])]
        simp only [List.length_cons]
        rw [ih hnd.2 h]

theorem gAdd_of_reacted (e u : String) (r : Reaction) (he : r.emoji = e)
    (hu : r.users.any (fun user => user = u) = true) : gAdd e u r = r := by
  simp [gAdd, he, hu]

theorem gAdd_of_not_reacted (e u : String) (r : Reaction) (he : r.emoji = e)
    (hu : r.users.any (fun user => user = u) = false) :
    gAdd e u r = { r with count := r.count + 1, users := u :: r.users } := by
  simp [gAdd, he, hu]

/-- Structural invariant of reaction records along well-formed reaction
sequences: the stored count equals the identity-set size and the identity
list holds no duplicates. -/
theorem goodReactSeq_inv (s : State) (h : GoodReactSeq s) :
    ∀ m r, r ∈ getReactions s m → r.count = r.users.length ∧ r.users.Nodup := by
  induction h with
  | init =>
    intro m r hr
    simp [getReactions, initialState, AList.empty, AList.get] at hr
  | add s0 m0 e u _ ih =>
    intro m r hr
    rw [getReactions_addReaction] at hr
    by_cases hm : m = m0
    · rw [if_pos hm] at hr
      rw [addList] at hr
      by_cases hf : hasEmojiR e (getReactions s0 m0)
      · rw [if_pos hf] at hr
        rcases List.mem_map.mp hr with ⟨r0, hr0, rfl⟩
        obtain ⟨hc, hn⟩ := ih m0 r0 hr0
        by_cases he : r0.emoji = e
        · cases hany : r0.users.any (fun user => user = u) with
          | true =>
            rw [gAdd_of_reacted e u r0 he hany]
            exact ⟨hc, hn⟩
          | false =>
            rw [gAdd_of_not_reacted e u r0 he hany]
            refine ⟨by simp [hc], ?_⟩
            rw [List.nodup_cons]
            refine ⟨fun hmem => ?_, hn⟩
            have hcontra : r0.users.any (fun user => user = u) = true :=
              List.any_eq_true.mpr ⟨u, hmem, by simp⟩
            rw [hany] at hcontra
            exact Bool.noConfusion hcontra
        · rw [gAdd_eq_self_of_ne e u r0 he]
          exact ⟨hc, hn⟩
      · rw [if_neg hf] at hr
        rcases List.mem_cons.mp hr with rfl | hmem
        · exact ⟨rfl, by simp⟩
        · exact ih m0 r hmem
    · rw [if_neg hm] at hr
      exact ih m r hr
  | remove s0 m0 e u _ hside ih =>
    intro m r hr
    rw [getReactions_removeReaction] at hr
    by_cases hm : m = m0
    · rw [if_pos hm] at hr
      rcases List.mem_map.mp hr with ⟨r0, hr0, rfl⟩
      obtain ⟨hc, hn⟩ := ih m0 r0 hr0
      unfold gRemove
      by_cases he : r0.emoji = e
      · have humem : u ∈ r0.users := hside r0 hr0 he
        have hlen : (r0.users.filter (fun x => x ≠ u)).length + 1 = r0.users.length :=
          length_filter_ne _ _ hn humem
        have hpos : r0.count > 0 := by
          rw [hc]
          exact List.length_pos.mpr fun hemp => by simp [hemp] at humem
        simp only [if_pos he, if_pos hpos]
        exact ⟨by omega, hn.filter _⟩
      · simp only [if_neg he]
        exact ⟨hc, hn⟩
    · rw [if_neg hm] at hr
      exact ih m r hr

/-- Claim C2 (counterexample): after `addReaction(0, "a", "u1")` followed by
`removeReaction(0, "a", "u2")` — an identity not in the set — the stored
record has `count = 0` but one reacting identity, so `count = |users|` does
not hold in every state reachable by add/remove sequences, and in
particular is not preserved by `removeReaction` when the identity is
absent from the emoji's set. -/
theorem reaction_count_drift :
    ∃ r ∈ getReactions (removeReaction (addReaction initialState 0 "a" "u1") 0 "a" "u2") 0,
      r.count ≠ r.users.length := by decide

/-- Claim C2 (amended): in every state reachable by addReaction calls and
by removeReaction calls whose identity is in the targeted emoji's set at
removal time, every stored reaction record satisfies
`count = |reactingIdentities|`; an absent-identity removal instead
decrements `count` without shrinking the set. -/
theorem reaction_count_matches_users (s : State) (h : GoodReactSeq s) (m : Nat)
    (r : Reaction) (hr : r ∈ getReactions s m) : r.count = r.users.length :=
  (goodReactSeq_inv s h m r hr).1

/-- Claim C2 (witness): concrete well-formed sequence and entry. -/
theorem reaction_count_matches_users_witness :
    (⟨"a", 1, ["u"]⟩ : Reaction) ∈ getReactions (addReaction initialState 0 "a" "u") 0
      ∧ (⟨"a", 1, ["u"]⟩ : Reaction).count = (⟨"a", 1, ["u"]⟩ : Reaction).users.length :=
  ⟨by decide,
    reaction_count_matches_users (addReaction initialState 0 "a" "u")
      (GoodReactSeq.add initialState 0 "a" "u" GoodReactSeq.init) 0
      (⟨"a", 1, ["u"]⟩ : Reaction) (by decide)⟩

/-- Claim C3 (counterexample): the snapshot returned by `getReactions`
carries the reacting identities themselves — here the caller can read
`"u1"` out of the returned record's `users` field — so the claim that
identities are not part of the caller-facing result is false. -/
theorem getReactions_exposes_identities :
    (getReactions (addReaction initialState 0 "a" "u1") 0).map Reaction.users = [["u1"]] := by
  decide

/-- Claim C3 (amended): `getReactions` returns the full stored reaction
records — per emoji, the emoji, its count, and the reacting identities; in
particular after `addReaction(m, e, u)` the returned snapshot for `m`
contains a record for `e` whose identity list contains `u`. -/
theorem getReactions_contains_reactor (s : State) (m : Nat) (e u : String) :
    ∃ r ∈ getReactions (addReaction s m e u) m, r.emoji = e ∧ u ∈ r.users := by
  rw [getReactions_addReaction, if_pos rfl, addList]
  by_cases hf : hasEmojiR e (getReactions s m)
  · rw [if_pos hf]
    rcases List.any_eq_true.mp hf with ⟨r0, hr0, he⟩
    refine ⟨gAdd e u r0, List.mem_map_of_mem _ hr0, ?_, ?_⟩
    · rw [gAdd_emoji]
      exact of_decide_eq_true he
    · exact gAdd_mem_users e u r0 (of_decide_eq_true he)
  · rw [if_neg hf]
    exact ⟨⟨e, 1, [u]⟩, List.mem_cons_self _ _, rfl, by simp⟩

/-- The `getMessages` view is the reversed raw log with default `[]`. -/
theorem getMessages_eq_getD (s : State) (r : Nat) :
    getMessages s r = ((s.messages.get r).getD []).reverse := by
  unfold getMessages
  cases s.messages.get r <;> rfl

/-- Claim C4: `sendMessage` fails exactly on empty content or a missing
room (failure is a trap, rolled back with no state change), and on success
all three effects occur: the message is appended to the room's
chronological log, the room's `messageCount` grows by exactly one, and the
presence record for the sender in that room is refreshed (old record
replaced by one stamped `now`). -/
theorem sendMessage_contract (s : State) (content sender : String) (roomId : Nat)
    (mediaUrl mediaType avatarUrl : Option String) (senderId : String)
    (replyTo : Option Nat) (now : Int) :
    (sendMessage s content sender roomId mediaUrl mediaType avatarUrl senderId replyTo now = none
      ↔ content.length = 0 ∨ s.chatrooms.get roomId = none)
    ∧ ∀ s', sendMessage s content sender roomId mediaUrl mediaType avatarUrl senderId replyTo now
          = some s' →
        getMessages s' roomId = getMessages s roomId ++
          [{ id := s.nextMessageId, content := content, timestamp := now, sender := sender,
             chatroomId := roomId, mediaUrl := mediaUrl, mediaType := mediaType,
             avatarUrl := avatarUrl, senderId := senderId, replyToMessageId := replyTo }]
        ∧ (∃ c, s.chatrooms.get roomId = some c ∧
            s'.chatrooms.get roomId = some { c with messageCount := c.messageCount + 1 })
        ∧ s'.activeUsers.get roomId = some
            ({ userId := senderId, lastActive := now } ::
              ((s.activeUsers.get roomId).getD []).filter fun u => u.userId ≠ senderId) := by
  constructor
  · by_cases h0 : content.length = 0
    · simp [sendMessage, h0]
    · cases hc : s.chatrooms.get roomId with
      | none => simp [sendMessage, h0, hc]
      | some c => simp [sendMessage, h0, hc]
  · intro s' hs'
    by_cases h0 : content.length = 0
    · rw [show sendMessage s content sender roomId mediaUrl mediaType avatarUrl senderId replyTo now = none by simp [sendMessage, h0]] at hs'
      cases hs'
    · cases hc : s.chatrooms.get roomId with
      | none =>
        rw [show sendMessage s content sender roomId mediaUrl mediaType avatarUrl senderId replyTo now = none by simp [sendMessage, h0, hc]] at hs'
        cases hs'
      | some c =>
        simp only [sendMessage, if_neg h0, hc, Option.some.injEq] at hs'
        subst hs'
        refine ⟨?_, ⟨c, rfl, ?_⟩, ?_⟩
        · rw [getMessages_eq_getD, getMessages_eq_getD]
          simp only [AList.get_put_self]
          simp [List.reverse_cons]
        · simp only [AList.get_put_self]
        · simp only [AList.get_put_self]

/-- Claim C4 (witness): a successful concrete send into a one-room state
exhibits all three effects. -/
theorem sendMessage_contract_witness :
    getMessages exSentState 0 = getMessages exRoomState 0 ++
      [{ id := exRoomState.nextMessageId, content := "hi", timestamp := 7, sender := "Alice",
         chatroomId := 0, mediaUrl := none, mediaType := none, avatarUrl := none,
         senderId := "u1", replyToMessageId := some 0 }]
    ∧ (∃ c, exRoomState.chatrooms.get 0 = some c ∧
        exSentState.chatrooms.get 0 = some { c with messageCount := c.messageCount + 1 })
    ∧ exSentState.activeUsers.get 0 = some
        ({ userId := "u1", lastActive := 7 } ::
          ((exRoomState.activeUsers.get 0).getD []).filter fun u => u.userId ≠ "u1") :=
  (sendMessage_contract exRoomState "hi" "Alice" 0 none none none "u1" (some 0) 7).2
    exSentState (by decide)

/-- Claim C7: for a room whose presence table holds exactly one record,
touched at `t0`, `getChatroom` at `now` reports the room live and counts
that identity exactly when `|now - t0| <= 60` seconds (60 * 10^9 ns), and
not live when the absolute difference exceeds the window; the comparison
is symmetric in `now` and `t0`, so a future-dated `lastActive` within the
window still counts as live. -/
theorem getChatroom_liveness (s : State) (rid : Nat) (c : Chatroom) (uid : String)
    (t0 now : Int) (hc : s.chatrooms.get rid = some c)
    (hu : s.activeUsers.get rid = some [{ userId := uid, lastActive := t0 }]) :
    (getChatroom s rid now).map ChatroomWithLiveStatus.isLive
        = some (decide ((now - t0).natAbs ≤ 60 * 1000000000))
    ∧ (getChatroom s rid now).map ChatroomWithLiveStatus.activeUserCount
        = some (if (now - t0).natAbs ≤ 60 * 1000000000 then 1 else 0) := by
  have hcount : (([{ userId := uid, lastActive := t0 }] : List ActiveUser).filter fun user =>
      (now - user.lastActive).natAbs ≤ (60 * 1000000000 : Nat)).length
      = if (now - t0).natAbs ≤ 60 * 1000000000 then 1 else 0 := by
    by_cases hwin : (now - t0).natAbs ≤ (60 * 1000000000 : Nat)
    · rw [if_pos hwin, List.filter_cons_of_pos (by simpa using hwin)]
      rfl
    · rw [if_neg hwin, List.filter_cons_of_neg (by simpa using hwin)]
      rfl
  simp only [getChatroom, hc, hu, Option.getD_some, hcount, Option.map_some']
  constructor
  · by_cases hwin : (now - t0).natAbs ≤ (60 * 1000000000 : Nat)
    · simp [hwin]
    · simp [hwin]
  · trivial

/-- Claim C7 (witness): a presence record future-dated by 50 seconds
(`t0 = 100s`, `now = 50s`, in nanoseconds) still counts the room live. -/
theorem getChatroom_liveness_witness :
    (getChatroom exPresenceState 0 50000000000).map ChatroomWithLiveStatus.isLive = some true
    ∧ (getChatroom exPresenceState 0 50000000000).map ChatroomWithLiveStatus.activeUserCount
        = some 1 := by
  have h := getChatroom_liveness exPresenceState 0 exRoom "u1" 100000000000 50000000000
    (by decide) (by decide)
  exact ⟨h.1.trans (by decide), h.2.trans (by decide)⟩

/-- Explicit success shape of `createChatroom`. -/
theorem createChatroom_some (s : State) (t d mu mt c : String) (now : Int)
    (s' : State) (rid : Nat) (h : createChatroom s t d mu mt c now = some (s', rid)) :
    s' = { s with
           chatrooms := s.chatrooms.put s.nextChatroomId
             { id := s.nextChatroomId, topic := t, description := d, mediaUrl := mu,
               mediaType := mt, createdAt := now, messageCount := 1, viewCount := 0,
               pinnedVideoId := none, category := c }
           messages := (s.messages.put s.nextChatroomId []).put s.nextChatroomId
             [{ id := s.nextMessageId, content := "Media content posted by creator",
                timestamp := now, sender := "Creator", chatroomId := s.nextChatroomId,
                mediaUrl := some mu, mediaType := some mt, avatarUrl := none,
                senderId := "creator", replyToMessageId := none }]
           nextMessageId := s.nextMessageId + 1
           nextChatroomId := s.nextChatroomId + 1 }
      ∧ rid = s.nextChatroomId := by
  unfold createChatroom at h
  split_ifs at h
  simp only [Option.some.injEq, Prod.mk.injEq] at h
  exact ⟨h.1.symm, h.2.symm⟩

/-- Explicit success shape of `sendMessage`. -/
theorem sendMessage_some (s : State) (content sender : String) (roomId : Nat)
    (mediaUrl mediaType avatarUrl : Option String) (senderId : String)
    (replyTo : Option Nat) (now : Int) (s' : State)
    (h : sendMessage s content sender roomId mediaUrl mediaType avatarUrl senderId replyTo now
      = some s') :
    ∃ c, s.chatrooms.get roomId = some c ∧
      s' = { s with
             messages := s.messages.put roomId
               ({ id := s.nextMessageId, content := content, timestamp := now,
                  sender := sender, chatroomId := roomId, mediaUrl := mediaUrl,
                  mediaType := mediaType, avatarUrl := avatarUrl, senderId := senderId,
                  replyToMessageId := replyTo } :: (s.messages.get roomId).getD [])
             nextMessageId := s.nextMessageId + 1
             chatrooms := s.chatrooms.put roomId { c with messageCount := c.messageCount + 1 }
             activeUsers := s.activeUsers.put roomId
               ({ userId := senderId, lastActive := now } ::
                 ((s.activeUsers.get roomId).getD []).filter fun u => u.userId ≠ senderId) } := by
  by_cases h0 : content.length = 0
  · rw [show sendMessage s content sender roomId mediaUrl mediaType avatarUrl senderId replyTo now = none by simp [sendMessage, h0]] at h
    cases h
  · cases hc : s.chatrooms.get roomId with
    | none =>
      rw [show sendMessage s content sender roomId mediaUrl mediaType avatarUrl senderId replyTo now = none by simp [sendMessage, h0, hc]] at h
      cases h
    | some c =>
      simp only [sendMessage, if_neg h0, hc, Option.some.injEq] at h
      exact ⟨c, rfl, h.symm⟩

/-- Explicit success shape of `incrementViewCount`. -/
theorem incrementViewCount_some (s : State) (roomId : Nat) (userId : String) (now : Int)
    (s' : State) (h : incrementViewCount s roomId userId now = some s') :
    ∃ c, s.chatrooms.get roomId = some c ∧
      s' = { s with
             chatrooms := s.chatrooms.put roomId { c with viewCount := c.viewCount + 1 }
             activeUsers := s.activeUsers.put roomId
               ({ userId := userId, lastActive := now } ::
                 ((s.activeUsers.get roomId).getD []).filter fun u => u.userId ≠ userId) } := by
  cases hc : s.chatrooms.get roomId with
  | none => simp [incrementViewCount, hc] at h
  | some c =>
    simp only [incrementViewCount, hc, Option.some.injEq] at h
    exact ⟨c, rfl, h.symm⟩

/-- Explicit success shape of `pinVideo`. -/
theorem pinVideo_some (s : State) (roomId messageId : Nat) (s' : State)
    (h : pinVideo s roomId messageId = some s') :
    ∃ c, s.chatrooms.get roomId = some c ∧
      s' = { s with chatrooms :=
        s.chatrooms.put roomId { c with pinnedVideoId := some messageId } } := by
  cases hc : s.chatrooms.get roomId with
  | none => simp [pinVideo, hc] at h
  | some c =>
    simp only [pinVideo, hc, Option.some.injEq] at h
    exact ⟨c, rfl, h.symm⟩

/-- Explicit success shape of `unpinVideo`. -/
theorem unpinVideo_some (s : State) (roomId : Nat) (s' : State)
    (h : unpinVideo s roomId = some s') :
    ∃ c, s.chatrooms.get roomId = some c ∧
      s' = { s with chatrooms :=
        s.chatrooms.put roomId { c with pinnedVideoId := none } } := by
  cases hc : s.chatrooms.get roomId with
  | none => simp [unpinVideo, hc] at h
  | some c =>
    simp only [unpinVideo, hc, Option.some.injEq] at h
    exact ⟨c, rfl, h.symm⟩

theorem keys_foldl_put {α : Type} (g : Nat × α → α) (es acc : AList α)
    (hsub : ∀ kv ∈ es, kv.1 ∈ AList.keys acc) :
    AList.keys (es.foldl (fun a p => AList.put a p.1 (g p)) acc) = AList.keys acc := by
  induction es generalizing acc with
  | nil => rfl
  | cons hd t ih =>
    have hmem : hd.1 ∈ AList.keys acc := hsub hd (List.mem_cons_self _ _)
    have hk : AList.keys (AList.put acc hd.1 (g hd)) = AList.keys acc :=
      AList.keys_put_of_mem _ _ _ hmem
    rw [List.foldl_cons, ih (AList.put acc hd.1 (g hd))
      (fun kv hkv => hk ▸ hsub kv (List.mem_cons_of_mem _ hkv)), hk]

/-- Reading the message table after a scan-and-patch rewrite pass: with
distinct keys, every room's list is mapped pointwise. -/
theorem mapValues_messages_get (es : AList (List Message)) (f : Message → Message)
    (k : Nat) (hnd : (AList.keys es).Nodup) :
    (es.foldl (fun acc kv => AList.put acc kv.1 (kv.2.map f)) es).get k
      = (es.get k).map (fun l => l.map f) := by
  cases hg : es.get k with
  | none =>
    have hk : k ∉ AList.keys es := (AList.get_eq_none_iff _ _).mp hg
    rw [AList.get_foldl_put_of_not_mem (fun kv => kv.2.map f) _ _ _ hk, hg]
    rfl
  | some l =>
    have hmem := AList.mem_of_get_eq_some _ _ _ hg
    exact AList.get_foldl_put_of_mem (fun kv => kv.2.map f) es es (k, l) hnd hmem

/-- Reading the message table after `updateUsernameRetroactively`. -/
theorem rename_messages_get (s : State) (sid nn : String) (k : Nat)
    (hnd : (AList.keys s.messages).Nodup) :
    (updateUsernameRetroactively s sid nn).messages.get k
      = (s.messages.get k).map (fun l => l.map (renameMsg sid nn)) :=
  mapValues_messages_get s.messages (renameMsg sid nn) k hnd

theorem mem_keys_put {α : Type} (es : AList α) (k k0 : Nat) (v : α)
    (h : k ∈ AList.keys (es.put k0 v)) : k ∈ AList.keys es ∨ k = k0 := by
  by_cases h0 : k0 ∈ AList.keys es
  · rw [AList.keys_put_of_mem _ _ _ h0] at h
    exact Or.inl h
  · rw [AList.keys_put_of_not_mem _ _ _ h0] at h
    rcases List.mem_append.mp h with h | h
    · exact Or.inl h
    · exact Or.inr (List.mem_singleton.mp h)

theorem inv_initial : Inv initialState := by
  refine ⟨?_, ?_, ?_, ?_, ?_⟩
  · simp [initialState, AList.empty, AList.keys]
  · intro k hk
    simp [initialState, AList.empty, AList.keys] at hk
  · intro k hk
    simp [initialState, AList.empty, AList.keys] at hk
  · intro k l hl
    simp [initialState, AList.empty, AList.get] at hl
  · intro k c hc
    simp [initialState, AList.empty, AList.get] at hc

/-- Inv is preserved by replacing one existing chatroom with a record of
the same `messageCount` (and arbitrary rewiring of presence/reactions). -/
theorem inv_put_room (s : State) (rid : Nat) (c c' : Chatroom)
    (au : AList (List ActiveUser)) (rx : AList (List Reaction)) (h : Inv s)
    (hc : s.chatrooms.get rid = some c) (hcount : c'.messageCount = c.messageCount) :
    Inv { s with chatrooms := s.chatrooms.put rid c', activeUsers := au, reactions := rx } := by
  refine ⟨h.msgKeysNodup, h.msgKeysLt, ?_, h.msgRoom, ?_⟩
  · intro k hk
    rcases mem_keys_put _ _ _ _ hk with hk | rfl
    · exact h.roomKeysLt k hk
    · exact h.roomKeysLt k (AList.mem_keys_of_get_eq_some _ _ _ hc)
  · intro k c'' hc''
    by_cases hk : k = rid
    · subst hk
      rw [AList.get_put_self] at hc''
      injection hc'' with hc''
      subst hc''
      obtain ⟨l, hl, hcl⟩ := h.countLen k c hc
      exact ⟨l, hl, by rw [hcount]; exact hcl⟩
    · rw [AList.get_put_ne _ _ _ _ hk] at hc''
      exact h.countLen k c'' hc''

/-- Inv is preserved by a scan-and-patch pass over the message table that
does not move messages between rooms. -/
theorem inv_mapValues (s : State) (f : Message → Message) (h : Inv s)
    (hpres : ∀ m, (f m).chatroomId = m.chatroomId) :
    Inv { s with messages :=
      s.messages.foldl (fun acc kv => AList.put acc kv.1 (kv.2.map f)) s.messages } := by
  have hkeys : AList.keys
      (s.messages.foldl (fun acc kv => AList.put acc kv.1 (kv.2.map f)) s.messages)
      = AList.keys s.messages :=
    keys_foldl_put _ _ _ fun kv hkv => List.mem_map_of_mem Prod.fst hkv
  refine ⟨?_, ?_, h.roomKeysLt, ?_, ?_⟩
  · rw [hkeys]
    exact h.msgKeysNodup
  · intro k hk
    rw [hkeys] at hk
    exact h.msgKeysLt k hk
  · intro k l hl m hm
    rw [mapValues_messages_get s.messages f k h.msgKeysNodup] at hl
    cases hg : s.messages.get k with
    | none => rw [hg] at hl; cases hl
    | some l0 =>
      rw [hg] at hl
      injection hl with hl
      subst hl
      rcases List.mem_map.mp hm with ⟨m0, hm0, rfl⟩
      rw [hpres m0]
      exact h.msgRoom k l0 hg m0 hm0
  · intro k c hc
    obtain ⟨l, hl, hcl⟩ := h.countLen k c hc
    refine ⟨l.map f, ?_, by rw [hcl, List.length_map]⟩
    rw [mapValues_messages_get s.messages f k h.msgKeysNodup, hl]
    rfl

/-- Every public call preserves the structural invariant. -/
theorem inv_step (s : State) (op : Op) (h : Inv s) : Inv (step s op) := by
  cases op with
  | create t d mu mt c now =>
    cases hcr : createChatroom s t d mu mt c now with
    | none => simpa [step, hcr] using h
    | some pair =>
      obtain ⟨s', rid⟩ := pair
      obtain ⟨hs', -⟩ := createChatroom_some s t d mu mt c now s' rid hcr
      have hstep : step s (.create t d mu mt c now) = s' := by simp [step, hcr]
      rw [hstep, hs', AList.put_put]
      have hnidm : s.nextChatroomId ∉ AList.keys s.messages :=
        fun hmem => Nat.lt_irrefl _ (h.msgKeysLt _ hmem)
      have hnidc : s.nextChatroomId ∉ AList.keys s.chatrooms :=
        fun hmem => Nat.lt_irrefl _ (h.roomKeysLt _ hmem)
      refine ⟨?_, ?_, ?_, ?_, ?_⟩
      · exact AList.keys_put_nodup _ _ _ h.msgKeysNodup
      · intro k hk
        rcases mem_keys_put _ _ _ _ hk with hk | rfl
        · exact Nat.lt_succ_of_lt (h.msgKeysLt k hk)
        · exact Nat.lt_succ_self _
      · intro k hk
        rcases mem_keys_put _ _ _ _ hk with hk | rfl
        · exact Nat.lt_succ_of_lt (h.roomKeysLt k hk)
        · exact Nat.lt_succ_self _
      · intro k l hl m hm
        by_cases hk : k = s.nextChatroomId
        · subst hk
          rw [AList.get_put_self] at hl
          injection hl with hl
          subst hl
          rcases List.mem_singleton.mp hm with rfl
          rfl
        · rw [AList.get_put_ne _ _ _ _ hk] at hl
          exact h.msgRoom k l hl m hm
      · intro k c' hc'
        by_cases hk : k = s.nextChatroomId
        · subst hk
          rw [AList.get_put_self] at hc'
          injection hc' with hc'
          subst hc'
          exact ⟨_, AList.get_put_self _ _ _, rfl⟩
        · rw [AList.get_put_ne _ _ _ _ hk] at hc'
          obtain ⟨l, hl, hcl⟩ := h.countLen k c' hc'
          exact ⟨l, by rw [AList.get_put_ne _ _ _ _ hk]; exact hl, hcl⟩
  | send co se roomId mu mt au sid rt now =>
    cases hsd : sendMessage s co se roomId mu mt au sid rt now with
    | none => simpa [step, hsd] using h
    | some s' =>
      obtain ⟨c, hc, hs'⟩ := sendMessage_some s co se roomId mu mt au sid rt now s' hsd
      have hstep : step s (.send co se roomId mu mt au sid rt now) = s' := by
        simp [step, hsd]
      have hrid : roomId < s.nextChatroomId :=
        h.roomKeysLt roomId (AList.mem_keys_of_get_eq_some _ _ _ hc)
      rw [hstep, hs']
      refine ⟨?_, ?_, ?_, ?_, ?_⟩
      · exact AList.keys_put_nodup _ _ _ h.msgKeysNodup
      · intro k hk
        rcases mem_keys_put _ _ _ _ hk with hk | rfl
        · exact h.msgKeysLt k hk
        · exact hrid
      · intro k hk
        rcases mem_keys_put _ _ _ _ hk with hk | rfl
        · exact h.roomKeysLt k hk
        · exact hrid
      · intro k l hl m hm
        by_cases hk : k = roomId
        · subst hk
          rw [AList.get_put_self] at hl
          injection hl with hl
          subst hl
          rcases List.mem_cons.mp hm with rfl | hm'
          · rfl
          · cases hg : s.messages.get k with
            | none => rw [hg] at hm'; cases hm'
            | some l0 =>
              rw [hg] at hm'
              exact h.msgRoom k l0 hg m hm'
        · rw [AList.get_put_ne _ _ _ _ hk] at hl
          exact h.msgRoom k l hl m hm
      · intro k c' hc'
        by_cases hk : k = roomId
        · subst hk
          rw [AList.get_put_self] at hc'
          injection hc' with hc'
          subst hc'
          obtain ⟨l, hl, hcl⟩ := h.countLen k c hc
          refine ⟨_, AList.get_put_self _ _ _, ?_⟩
          rw [hl]
          simp [hcl]
        · rw [AList.get_put_ne _ _ _ _ hk] at hc'
          obtain ⟨l, hl, hcl⟩ := h.countLen k c' hc'
          exact ⟨l, by rw [AList.get_put_ne _ _ _ _ hk]; exact hl, hcl⟩
  | view roomId u now =>
    cases hv : incrementViewCount s roomId u now with
    | none => simpa [step, hv] using h
    | some s' =>
      obtain ⟨c, hc, hs'⟩ := incrementViewCount_some s roomId u now s' hv
      have hstep : step s (.view roomId u now) = s' := by simp [step, hv]
      rw [hstep, hs']
      exact inv_put_room s roomId c _ _ _ h hc rfl
  | pin roomId mid =>
    cases hp : pinVideo s roomId mid with
    | none => simpa [step, hp] using h
    | some s' =>
      obtain ⟨c, hc, hs'⟩ := pinVideo_some s roomId mid s' hp
      have hstep : step s (.pin roomId mid) = s' := by simp [step, hp]
      rw [hstep, hs']
      exact inv_put_room s roomId c _ _ _ h hc rfl
  | unpin roomId =>
    cases hp : unpinVideo s roomId with
    | none => simpa [step, hp] using h
    | some s' =>
      obtain ⟨c, hc, hs'⟩ := unpinVideo_some s roomId s' hp
      have hstep : step s (.unpin roomId) = s' := by simp [step, hp]
      rw [hstep, hs']
      exact inv_put_room s roomId c _ _ _ h hc rfl
  | rename sid nn =>
    exact inv_mapValues s (renameMsg sid nn) h fun m => by
      unfold renameMsg
      split <;> rfl
  | reavatar sid av =>
    exact inv_mapValues s (reavatarMsg sid av) h fun m => by
      unfold reavatarMsg
      split <;> rfl
  | cleanup now =>
    exact ⟨h.msgKeysNodup, h.msgKeysLt, h.roomKeysLt, h.msgRoom, h.countLen⟩
  | addR m e u =>
    rw [show step s (.addR m e u) = addReaction s m e u from rfl, addReaction_eq]
    exact ⟨h.msgKeysNodup, h.msgKeysLt, h.roomKeysLt, h.msgRoom, h.countLen⟩
  | removeR m e u =>
    exact ⟨h.msgKeysNodup, h.msgKeysLt, h.roomKeysLt, h.msgRoom, h.countLen⟩

theorem run_inv (ops : List Op) (s : State) (h : Inv s) : Inv (run s ops) := by
  induction ops generalizing s with
  | nil => exact h
  | cons op rest ih => exact ih (step s op) (inv_step s op h)

theorem reach_inv (s : State) (h : Reach s) : Inv s := by
  obtain ⟨ops, rfl⟩ := h
  exact run_inv ops initialState inv_initial

/-- Claim C6: after `updateUsernameRetroactively(id, newName)`, every room's
stored log is the old log with exactly the per-message rewrite applied:
messages whose `senderId` equals `id` show `sender = newName` (their other
fields, including `avatarUrl`, untouched by `renameMsg`), and messages from
any other identity are completely unchanged and still present. -/
theorem updateUsername_retroactive (s : State) (h : Reach s) (sid nn : String)
    (roomId : Nat) :
    getMessages (updateUsernameRetroactively s sid nn) roomId
      = (getMessages s roomId).map (renameMsg sid nn)
    ∧ (∀ m ∈ getMessages (updateUsernameRetroactively s sid nn) roomId,
        m.senderId = sid → m.sender = nn)
    ∧ (∀ m ∈ getMessages s roomId, m.senderId ≠ sid →
        m ∈ getMessages (updateUsernameRetroactively s sid nn) roomId) := by
  have hnd := (reach_inv s h).msgKeysNodup
  have hmain : getMessages (updateUsernameRetroactively s sid nn) roomId
      = (getMessages s roomId).map (renameMsg sid nn) := by
    rw [getMessages_eq_getD, getMessages_eq_getD, rename_messages_get s sid nn roomId hnd]
    cases s.messages.get roomId with
    | none => rfl
    | some l => simp [List.map_reverse]
  refine ⟨hmain, ?_, ?_⟩
  · intro m hm hsid
    rw [hmain] at hm
    rcases List.mem_map.mp hm with ⟨m0, hm0, rfl⟩
    have hpres : (renameMsg sid nn m0).senderId = m0.senderId := by
      unfold renameMsg
      split <;> rfl
    rw [hpres] at hsid
    unfold renameMsg
    rw [if_pos hsid]
  · intro m hm hne
    rw [hmain]
    have hid : renameMsg sid nn m = m := by
      unfold renameMsg
      rw [if_neg hne]
    exact hid ▸ List.mem_map_of_mem (renameMsg sid nn) hm

/-- Claim C6 (witness): a concrete reachable two-message state in which
"u1"'s message is renamed and the Creator seed message is untouched. -/
theorem updateUsername_retroactive_witness :
    getMessages (updateUsernameRetroactively exSentState "u1" "Bob") 0
      = (getMessages exSentState 0).map (renameMsg "u1" "Bob")
    ∧ (∀ m ∈ getMessages (updateUsernameRetroactively exSentState "u1" "Bob") 0,
        m.senderId = "u1" → m.sender = "Bob")
    ∧ (∀ m ∈ getMessages exSentState 0, m.senderId ≠ "u1" →
        m ∈ getMessages (updateUsernameRetroactively exSentState "u1" "Bob") 0) :=
  updateUsername_retroactive exSentState ⟨_, rfl⟩ "u1" "Bob" 0

/-- Claim C9: `getReplies(roomId, parentId)` returns exactly the
chronological messages of that room whose `replyToMessageId` equals
`parentId` (the chronological log filtered by the reply predicate), and, in
any reachable state, every returned message belongs to that room — a
message of another room is never included even if it replies to the same
numeric id. -/
theorem getReplies_spec (s : State) (h : Reach s) (roomId parentId : Nat) :
    getReplies s roomId parentId = (getMessages s roomId).filter (isReplyTo parentId)
    ∧ ∀ m ∈ getReplies s roomId parentId, m.chatroomId = roomId := by
  constructor
  · rw [getMessages_eq_getD]
    unfold getReplies
    cases hg : s.messages.get roomId with
    | none => simp
    | some l =>
      simp only [Option.getD_some]
      exact (List.filter_reverse _ _).symm
  · intro m hm
    unfold getReplies at hm
    cases hg : s.messages.get roomId with
    | none => rw [hg] at hm; cases hm
    | some l =>
      rw [hg] at hm
      have hml : m ∈ l := List.mem_of_mem_filter (List.mem_reverse.mp hm)
      exact (reach_inv s h).msgRoom roomId l hg m hml

/-- Claim C9 (witness): concrete reachable state where message 1 replies to
the seed message 0 of room 0. -/
theorem getReplies_spec_witness :
    getReplies exSentState 0 0 = (getMessages exSentState 0).filter (isReplyTo 0)
    ∧ ∀ m ∈ getReplies exSentState 0 0, m.chatroomId = 0 :=
  getReplies_spec exSentState ⟨_, rfl⟩ 0 0

/-- Claim C10: in every reachable state, every existing chatroom's stored
`messageCount` equals the number of messages in that room's log
(`createChatroom` establishes it at 1 with the seed message; every public
call preserves it). -/
theorem messageCount_matches_log (s : State) (h : Reach s) (k : Nat) (c : Chatroom)
    (hc : s.chatrooms.get k = some c) :
    ∃ l, s.messages.get k = some l ∧ c.messageCount = l.length :=
  (reach_inv s h).countLen k c hc

/-- Claim C10 (witness): the freshly created room has `messageCount = 1`
and a one-message log. -/
theorem messageCount_matches_log_witness :
    ∃ l, exRoomState.messages.get 0 = some l ∧
      ({ id := 0, topic := "t", description := "d", mediaUrl := "youtube.com/w",
         mediaType := "youtube", createdAt := 5, messageCount := 1, viewCount := 0,
         pinnedVideoId := none, category := "cat" } : Chatroom).messageCount = l.length :=
  messageCount_matches_log exRoomState ⟨_, rfl⟩ 0
    { id := 0, topic := "t", description := "d", mediaUrl := "youtube.com/w",
      mediaType := "youtube", createdAt := 5, messageCount := 1, viewCount := 0,
      pinnedVideoId := none, category := "cat" } (by decide)

theorem step_nextMessageId_le (s : State) (op : Op) :
    s.nextMessageId ≤ (step s op).nextMessageId := by
  cases op with
  | create t d mu mt c now =>
    cases hcr : createChatroom s t d mu mt c now with
    | none => simp [step, hcr]
    | some pair =>
      obtain ⟨s', rid⟩ := pair
      obtain ⟨hs', -⟩ := createChatroom_some s t d mu mt c now s' rid hcr
      simp [step, hcr, hs']
  | send co se r mu mt au sid rt now =>
    cases hsd : sendMessage s co se r mu mt au sid rt now with
    | none => simp [step, hsd]
    | some s' =>
      obtain ⟨c, hc, hs'⟩ := sendMessage_some s co se r mu mt au sid rt now s' hsd
      simp [step, hsd, hs']
  | view r u now =>
    cases hv : incrementViewCount s r u now with
    | none => simp [step, hv]
    | some s' =>
      obtain ⟨c, hc, hs'⟩ := incrementViewCount_some s r u now s' hv
      simp [step, hv, hs']
  | pin r mid =>
    cases hp : pinVideo s r mid with
    | none => simp [step, hp]
    | some s' =>
      obtain ⟨c, hc, hs'⟩ := pinVideo_some s r mid s' hp
      simp [step, hp, hs']
  | unpin r =>
    cases hp : unpinVideo s r with
    | none => simp [step, hp]
    | some s' =>
      obtain ⟨c, hc, hs'⟩ := unpinVideo_some s r s' hp
      simp [step, hp, hs']
  | rename sid nn => exact Nat.le_refl _
  | reavatar sid av => exact Nat.le_refl _
  | cleanup now => exact Nat.le_refl _
  | addR m e u => simp [step, addReaction_eq]
  | removeR m e u => exact Nat.le_refl _

theorem step_nextChatroomId_le (s : State) (op : Op) :
    s.nextChatroomId ≤ (step s op).nextChatroomId := by
  cases op with
  | create t d mu mt c now =>
    cases hcr : createChatroom s t d mu mt c now with
    | none => simp [step, hcr]
    | some pair =>
      obtain ⟨s', rid⟩ := pair
      obtain ⟨hs', -⟩ := createChatroom_some s t d mu mt c now s' rid hcr
      simp [step, hcr, hs']
  | send co se r mu mt au sid rt now =>
    cases hsd : sendMessage s co se r mu mt au sid rt now with
    | none => simp [step, hsd]
    | some s' =>
      obtain ⟨c, hc, hs'⟩ := sendMessage_some s co se r mu mt au sid rt now s' hsd
      simp [step, hsd, hs']
  | view r u now =>
    cases hv : incrementViewCount s r u now with
    | none => simp [step, hv]
    | some s' =>
      obtain ⟨c, hc, hs'⟩ := incrementViewCount_some s r u now s' hv
      simp [step, hv, hs']
  | pin r mid =>
    cases hp : pinVideo s r mid with
    | none => simp [step, hp]
    | some s' =>
      obtain ⟨c, hc, hs'⟩ := pinVideo_some s r mid s' hp
      simp [step, hp, hs']
  | unpin r =>
    cases hp : unpinVideo s r with
    | none => simp [step, hp]
    | some s' =>
      obtain ⟨c, hc, hs'⟩ := unpinVideo_some s r s' hp
      simp [step, hp, hs']
  | rename sid nn => exact Nat.le_refl _
  | reavatar sid av => exact Nat.le_refl _
  | cleanup now => exact Nat.le_refl _
  | addR m e u => simp [step, addReaction_eq]
  | removeR m e u => exact Nat.le_refl _

theorem msgIdsOf_cases (s : State) (op : Op) :
    msgIdsOf s op = [] ∨ msgIdsOf s op = [s.nextMessageId] := by
  cases op with
  | create t d mu mt c now =>
    by_cases h : (createChatroom s t d mu mt c now).isSome
    · right
      simp [msgIdsOf, h]
    · left
      simp [msgIdsOf, h]
  | send co se r mu mt au sid rt now =>
    by_cases h : (sendMessage s co se r mu mt au sid rt now).isSome
    · right
      simp [msgIdsOf, h]
    · left
      simp [msgIdsOf, h]
  | view r u now => exact Or.inl rfl
  | pin r mid => exact Or.inl rfl
  | unpin r => exact Or.inl rfl
  | rename sid nn => exact Or.inl rfl
  | reavatar sid av => exact Or.inl rfl
  | cleanup now => exact Or.inl rfl
  | addR m e u => exact Or.inl rfl
  | removeR m e u => exact Or.inl rfl

theorem msgIdsOf_step (s : State) (op : Op) (i : Nat) (h : i ∈ msgIdsOf s op) :
    i = s.nextMessageId ∧ s.nextMessageId + 1 ≤ (step s op).nextMessageId := by
  cases op with
  | create t d mu mt c now =>
    cases hcr : createChatroom s t d mu mt c now with
    | none => simp [msgIdsOf, hcr] at h
    | some pair =>
      obtain ⟨s', rid⟩ := pair
      obtain ⟨hs', -⟩ := createChatroom_some s t d mu mt c now s' rid hcr
      simp [msgIdsOf, hcr] at h
      subst h
      refine ⟨rfl, ?_⟩
      simp [step, hcr, hs']
  | send co se r mu mt au sid rt now =>
    cases hsd : sendMessage s co se r mu mt au sid rt now with
    | none => simp [msgIdsOf, hsd] at h
    | some s' =>
      obtain ⟨c, hc, hs'⟩ := sendMessage_some s co se r mu mt au sid rt now s' hsd
      simp [msgIdsOf, hsd] at h
      subst h
      refine ⟨rfl, ?_⟩
      simp [step, hsd, hs']
  | view r u now => cases h
  | pin r mid => cases h
  | unpin r => cases h
  | rename sid nn => cases h
  | reavatar sid av => cases h
  | cleanup now => cases h
  | addR m e u => cases h
  | removeR m e u => cases h

theorem roomIdsOf_step (s : State) (op : Op) (i : Nat) (h : i ∈ roomIdsOf s op) :
    i = s.nextChatroomId ∧ s.nextChatroomId + 1 ≤ (step s op).nextChatroomId := by
  cases op with
  | create t d mu mt c now =>
    cases hcr : createChatroom s t d mu mt c now with
    | none => simp [roomIdsOf, hcr] at h
    | some pair =>
      obtain ⟨s', rid⟩ := pair
      obtain ⟨hs', -⟩ := createChatroom_some s t d mu mt c now s' rid hcr
      simp [roomIdsOf, hcr] at h
      subst h
      refine ⟨rfl, ?_⟩
      simp [step, hcr, hs']
  | send co se r mu mt au sid rt now => cases h
  | view r u now => cases h
  | pin r mid => cases h
  | unpin r => cases h
  | rename sid nn => cases h
  | reavatar sid av => cases h
  | cleanup now => cases h
  | addR m e u => cases h
  | removeR m e u => cases h

theorem roomIdsOf_cases (s : State) (op : Op) :
    roomIdsOf s op = [] ∨ roomIdsOf s op = [s.nextChatroomId] := by
  cases op with
  | create t d mu mt c now =>
    by_cases h : (createChatroom s t d mu mt c now).isSome
    · right
      simp [roomIdsOf, h]
    · left
      simp [roomIdsOf, h]
  | send co se r mu mt au sid rt now => exact Or.inl rfl
  | view r u now => exact Or.inl rfl
  | pin r mid => exact Or.inl rfl
  | unpin r => exact Or.inl rfl
  | rename sid nn => exact Or.inl rfl
  | reavatar sid av => exact Or.inl rfl
  | cleanup now => exact Or.inl rfl
  | addR m e u => exact Or.inl rfl
  | removeR m e u => exact Or.inl rfl

theorem mem_messageIdsAssigned_ge (ops : List Op) (s : State) (i : Nat)
    (h : i ∈ messageIdsAssigned s ops) : s.nextMessageId ≤ i := by
  induction ops generalizing s with
  | nil => cases h
  | cons op rest ih =>
    rw [messageIdsAssigned] at h
    rcases List.mem_append.mp h with h | h
    · exact le_of_eq (msgIdsOf_step s op i h).1.symm
    · exact Nat.le_trans (step_nextMessageId_le s op) (ih (step s op) h)

theorem mem_chatroomIdsAssigned_ge (ops : List Op) (s : State) (i : Nat)
    (h : i ∈ chatroomIdsAssigned s ops) : s.nextChatroomId ≤ i := by
  induction ops generalizing s with
  | nil => cases h
  | cons op rest ih =>
    rw [chatroomIdsAssigned] at h
    rcases List.mem_append.mp h with h | h
    · exact le_of_eq (roomIdsOf_step s op i h).1.symm
    · exact Nat.le_trans (step_nextChatroomId_le s op) (ih (step s op) h)

theorem messageIdsAssigned_pairwise (ops : List Op) (s : State) :
    (messageIdsAssigned s ops).Pairwise (· < ·) := by
  induction ops generalizing s with
  | nil => exact List.Pairwise.nil
  | cons op rest ih =>
    rw [messageIdsAssigned]
    refine List.pairwise_append.mpr ⟨?_, ih (step s op), ?_⟩
    · rcases msgIdsOf_cases s op with h | h <;> rw [h]
      · exact List.Pairwise.nil
      · exact List.pairwise_singleton _ _
    · intro a ha b hb
      obtain ⟨rfl, hstep⟩ := msgIdsOf_step s op a ha
      have hb' := mem_messageIdsAssigned_ge rest (step s op) b hb
      omega

theorem chatroomIdsAssigned_pairwise (ops : List Op) (s : State) :
    (chatroomIdsAssigned s ops).Pairwise (· < ·) := by
  induction ops generalizing s with
  | nil => exact List.Pairwise.nil
  | cons op rest ih =>
    rw [chatroomIdsAssigned]
    refine List.pairwise_append.mpr ⟨?_, ih (step s op), ?_⟩
    · rcases roomIdsOf_cases s op with h | h <;> rw [h]
      · exact List.Pairwise.nil
      · exact List.pairwise_singleton _ _
    · intro a ha b hb
      obtain ⟨rfl, hstep⟩ := roomIdsOf_step s op a ha
      have hb' := mem_chatroomIdsAssigned_ge rest (step s op) b hb
      omega

/-- Claim C8: along any sequence of public calls from the initial state,
the chatroom ids assigned by successful `createChatroom` calls are
strictly increasing (hence never reused), and the message ids assigned —
seed messages of `createChatroom` included — are strictly increasing
across all rooms (hence never reused). -/
theorem assigned_ids_strictly_increasing (ops : List Op) :
    (chatroomIdsAssigned initialState ops).Pairwise (· < ·)
    ∧ (messageIdsAssigned initialState ops).Pairwise (· < ·) :=
  ⟨chatroomIdsAssigned_pairwise ops initialState,
   messageIdsAssigned_pairwise ops initialState⟩

end Chattr
